import Mathlib

/-!
Verification of the `statusline` tool (a one-line git status renderer).

The Go code is shallowly embedded: Go strings are byte lists (`GoStr`),
each byte a `Nat` below 256, produced from Lean string literals by UTF-8
encoding (`gs`).  Machine integers (`int`, `int64`) are `Int` with explicit
64-bit wrap-around (`wrap64`) where overflow matters.  Environment
variables and subprocess outputs are passed as explicit parameters.
-/

/-- Go strings are byte sequences; we model them as lists of byte values. -/
abbrev GoStr := List Nat

/-- UTF-8 encoding of one code point, as byte values. -/
def utf8N (n : Nat) : GoStr :=
  if n < 0x80 then [n]
  else if n < 0x800 then
    [0xC0 + n / 0x40, 0x80 + n % 0x40]
  else if n < 0x10000 then
    [0xE0 + n / 0x1000, 0x80 + n / 0x40 % 0x40, 0x80 + n % 0x40]
  else
    [0xF0 + n / 0x40000, 0x80 + n / 0x1000 % 0x40, 0x80 + n / 0x40 % 0x40, 0x80 + n % 0x40]

/-- The byte sequence of a Lean string literal, as Go sees it (UTF-8). -/
def gs (s : String) : GoStr := s.data.flatMap (fun c => utf8N c.toNat)

/-- ASCII whitespace, the subset of Go `unicode.IsSpace` relevant to the
byte strings this tool consumes (git porcelain output is structured by
ASCII space, tab, newline and carriage return). -/
def isSpaceB (b : Nat) : Bool := b = 32 || b = 9 || b = 10 || b = 13 || b = 11 || b = 12

/-- Models `strings.TrimSpace` (restricted to ASCII whitespace). -/
def trimSpace (s : GoStr) : GoStr :=
  ((s.dropWhile isSpaceB).reverse.dropWhile isSpaceB).reverse

/-- Models `strings.TrimPrefix`: drop `p` from the front of `s` when it is
a prefix, otherwise return `s` unchanged. -/
def cutPfx (p s : GoStr) : GoStr :=
  if p.isPrefixOf s then s.drop p.length else s

/-- Models `strings.Fields` (split around runs of whitespace, no empties). -/
def fieldsGo (s : GoStr) : List GoStr :=
  (s.splitOnP isSpaceB).filter (fun f => f ≠ [])

/-- Models `strings.Contains`: `sub` occurs as a contiguous substring. -/
def containsGo (sub : GoStr) : GoStr → Bool
  | [] => sub.isPrefixOf []
  | b :: t => sub.isPrefixOf (b :: t) || containsGo sub t

/-- 64-bit two-complement wrap-around, the behaviour of Go `int`/`int64`
arithmetic on overflow. -/
def wrap64 (n : Int) : Int := (n + 9223372036854775808) % 18446744073709551616 - 9223372036854775808

/-! ## `parseSigned` (main.go) -/

/-- The digit-accumulation loop of `parseSigned`: Go
`for _, c := range s { if c < '0' || c > '9' { break }; n = n*10 + int(c-'0') }`
with `n : int` wrapping at 64 bits. -/
def psLoop (n : Int) : GoStr → Int
  | [] => n
  | b :: r => if b < 48 ∨ 57 < b then n else psLoop (wrap64 (n * 10 + ((b : Int) - 48))) r

/-- `parseSigned` from main.go: strips one leading `+` or `-`, then
accumulates the longest decimal-digit prefix into a (wrapping) `int`. -/
def parseSigned (s : GoStr) : Int :=
  match s with
  | [] => 0
  | b :: r => if b = 43 ∨ b = 45 then psLoop 0 r else psLoop 0 (b :: r)

/-! ## `parseStatus` (main.go) -/

/-- The named results of Go `parseStatus`. -/
structure gitStatus where
  branch : GoStr
  ahead : Int
  behind : Int
  hasTracked : Bool
  hasUntracked : Bool
deriving Repr, DecidableEq

/-- One iteration of the `parseStatus` loop body over a raw line. -/
def statusLine (st : gitStatus) (ln0 : GoStr) : gitStatus :=
  let ln := trimSpace ln0
  if ln = [] then st
  else if (gs "#").isPrefixOf ln then
    if (gs "# branch.head ").isPrefixOf ln then
      { st with branch := trimSpace (cutPfx (gs "# branch.head") ln) }
    else if (gs "# branch.ab ").isPrefixOf ln then
      match fieldsGo (cutPfx (gs "# branch.ab") ln) with
      | [x, y] => { st with ahead := parseSigned x, behind := parseSigned y }
      | _ => st
    else st
  else if (gs "? ").isPrefixOf ln then { st with hasUntracked := true }
  else if (gs "1 ").isPrefixOf ln || (gs "2 ").isPrefixOf ln then { st with hasTracked := true }
  else st

/-- `parseStatus` from main.go: fold the loop body over the lines of the
`git status --porcelain=2 --branch` text. -/
def parseStatus (s : GoStr) : gitStatus :=
  (List.splitOn 10 s).foldl statusLine ⟨[], 0, 0, false, false⟩

/-! ## Rendering (main.go) -/

def colGreen : GoStr := gs "38;5;82"

def colYellow : GoStr := gs "38;5;220"

def colRed : GoStr := gs "38;5;196"

def maxBranchLen : Int := 48

/-- `shorten` from main.go (byte-level truncation with a `...` suffix). -/
def shorten (s : GoStr) (maxLen : Int) : GoStr :=
  if maxLen ≤ 4 ∨ (s.length : Int) ≤ maxLen then s
  else s.take (maxLen - 3).toNat ++ gs "..."

/-- `colorize` from main.go.  `env` is the value of the environment
variable `STATUSLINE_NO_COLOR`. -/
def colorize (env s col : GoStr) : GoStr :=
  if env = gs "1" then s
  else [27] ++ gs "[" ++ col ++ gs "m" ++ s ++ [27] ++ gs "[0m"

/-- `colorizeBold` from main.go. -/
def colorizeBold (env s col : GoStr) : GoStr :=
  if env = gs "1" then s
  else [27] ++ gs "[1;" ++ col ++ gs "m" ++ s ++ [27] ++ gs "[0m"

/-- The `repoInfo` record from main.go. -/
structure repoInfo where
  Project : GoStr
  Branch : GoStr
  Ahead : Int
  Behind : Int
  HasTracked : Bool
  HasUntracked : Bool
  IsGit : Bool

/-- The icon-colour switch at the top of `render`. -/
def iconColor (ri : repoInfo) : GoStr :=
  if ri.HasUntracked then colRed
  else if ri.HasTracked then colYellow
  else colGreen

/-- Decimal digits, fuel-structured so that it reduces in the kernel
(`fuel` bounds the digit count; `natDigs` passes enough). -/
def natDigsAux (fuel n : Nat) : GoStr :=
  match fuel with
  | 0 => []
  | f + 1 => if n < 10 then [48 + n] else natDigsAux f (n / 10) ++ [48 + n % 10]

/-- Decimal digits of a natural number, as bytes (`fmt.Sprintf "%d"`). -/
def natDigs (n : Nat) : GoStr := natDigsAux (n + 1) n

/-- `fmt.Sprintf "%d"` for a Go `int`. -/
def intToStr (n : Int) : GoStr :=
  if n < 0 then 45 :: natDigs (-n).toNat else natDigs n.toNat

/-- `render` from main.go.  `env` is the value of `STATUSLINE_NO_COLOR`. -/
def render (env : GoStr) (ri : repoInfo) : GoStr :=
  if !ri.IsGit then ri.Project
  else
    let icon := colorizeBold env (gs "⎇") (iconColor ri)
    let arrows :=
      (if 0 < ri.Ahead then gs " " ++ colorize env (gs "↑" ++ intToStr ri.Ahead) colGreen else [])
        ++ (if 0 < ri.Behind then gs " " ++ colorize env (gs "↓" ++ intToStr ri.Behind) colRed else [])
    ri.Project ++ gs " on " ++ icon ++ gs " " ++ shorten ri.Branch maxBranchLen ++ arrows

/-! ## The fetch gate (main.go) -/

def isDigitB (b : Nat) : Bool := 48 ≤ b && b ≤ 57

/-- Models `strconv.ParseInt(s, 10, 64)` (also `strconv.Atoi` on a 64-bit
platform): optional sign, non-empty all-decimal digits, in `int64` range;
`none` on any other input. -/
def parseInt64 (s : GoStr) : Option Int :=
  match s with
  | [] => none
  | _ =>
    let p : Int × GoStr :=
      match s with
      | 43 :: r => (1, r)
      | 45 :: r => (-1, r)
      | _ => (1, s)
    if p.2 = [] ∨ ¬p.2.all isDigitB then none
    else
      let v : Int := p.1 * (p.2.foldl (fun n b => n * 10 + (b - 48)) 0 : Nat)
      if -9223372036854775808 ≤ v ∧ v ≤ 9223372036854775807 then some v else none

/-- `getFetchInterval` from main.go, in nanoseconds (`time.Duration`).
`env` is the value of `STATUSLINE_FETCH_INTERVAL`. -/
def getFetchInterval (env : GoStr) : Int :=
  if env ≠ [] then
    match parseInt64 env with
    | some m => if 0 < m then wrap64 (m * 60000000000) else 1800000000000
    | none => 1800000000000
  else 1800000000000

/-- The field scan of `shouldFetch`: walk the whitespace-split fields of
the reflog line with their indices; on a field containing `fetch` at a
positive index, try to parse `fields[1]` (passed as `f1`) as an integer
and, on success, return the elapsed-time comparison
`time.Since(time.Unix(ts, 0)) >= interval` (times in nanoseconds). -/
def sfLoop (intervalNs nowNs : Int) (f1 : GoStr) : List (Nat × GoStr) → Bool
  | [] => true
  | (i, fld) :: rest =>
    if containsGo (gs "fetch") fld && decide (0 < i) then
      match parseInt64 f1 with
      | some ts => decide (intervalNs ≤ nowNs - ts * 1000000000)
      | none => sfLoop intervalNs nowNs f1 rest
    else sfLoop intervalNs nowNs f1 rest

/-- `shouldFetch` from main.go, over the pure data it consumes: the
configured interval, the outputs of the two git subprocesses
(`git rev-parse ... @{u}` and `git reflog show --date=unix <up> -1`,
both already whitespace-trimmed by `git()`), and the current wall-clock
time in nanoseconds since the Unix epoch. -/
def shouldFetch (intervalNs : Int) (up reflog : GoStr) (nowNs : Int) : Bool :=
  if up = [] then true
  else if reflog = [] then true
  else
    let fields := fieldsGo reflog
    sfLoop intervalNs nowNs (fields.getD 1 []) fields.enum

/-! ## `readCwd` (main.go) and its use of `encoding/json.Unmarshal`

`readCwd` reads all of stdin, returns `""` on empty input, and otherwise
runs `json.Unmarshal(b, &in)` for `in : struct { Cwd string `json:"cwd"` }`,
ignoring the error, and returns `strings.TrimSpace(in.Cwd)`.

`json.Unmarshal` is modelled from its documented behaviour: it first
validates the whole input against the JSON grammar (rejecting everything
on a syntax error, so no partial assignment happens), then, for a
top-level object, assigns to `Cwd` the value of each member whose name
matches the field key `cwd` — preferring an exact match but also accepting
a case-insensitive match — provided the value is a JSON string (a
non-string value records a type error and leaves the field as it was).
Later members overwrite earlier ones.  String escapes are decoded
(`\uXXXX` including surrogate pairs, lone surrogates becoming U+FFFD);
other bytes are kept verbatim. -/

inductive JValue where
  | jnull : JValue
  | jbool : Bool → JValue
  | jnum : GoStr → JValue
  | jstr : GoStr → JValue
  | jarr : List JValue → JValue
  | jobj : List (GoStr × JValue) → JValue

/-- JSON structural whitespace. -/
def jIsWs (b : Nat) : Bool := b = 32 || b = 9 || b = 10 || b = 13

def jSkipWs (s : GoStr) : GoStr := s.dropWhile jIsWs

/-- Value of a hexadecimal digit byte. -/
def hexVal (b : Nat) : Option Nat :=
  if 48 ≤ b ∧ b ≤ 57 then some (b - 48)
  else if 65 ≤ b ∧ b ≤ 70 then some (b - 55)
  else if 97 ≤ b ∧ b ≤ 102 then some (b - 87)
  else none

/-- Body of a JSON string (positioned after the opening quote): returns
the decoded bytes and the rest of the input after the closing quote.
Fuel-structured so that it reduces in the kernel; every step consumes at
least one input byte, so `length + 1` fuel is always enough. -/
def parseStrBodyF : Nat → GoStr → Option (GoStr × GoStr)
  | 0, _ => none
  | _ + 1, [] => none
  | _ + 1, 34 :: rest => some ([], rest)
  | f + 1, 92 :: 34 :: r => (parseStrBodyF f r).map (fun p => (34 :: p.1, p.2))
  | f + 1, 92 :: 92 :: r => (parseStrBodyF f r).map (fun p => (92 :: p.1, p.2))
  | f + 1, 92 :: 47 :: r => (parseStrBodyF f r).map (fun p => (47 :: p.1, p.2))
  | f + 1, 92 :: 98 :: r => (parseStrBodyF f r).map (fun p => (8 :: p.1, p.2))
  | f + 1, 92 :: 102 :: r => (parseStrBodyF f r).map (fun p => (12 :: p.1, p.2))
  | f + 1, 92 :: 110 :: r => (parseStrBodyF f r).map (fun p => (10 :: p.1, p.2))
  | f + 1, 92 :: 114 :: r => (parseStrBodyF f r).map (fun p => (13 :: p.1, p.2))
  | f + 1, 92 :: 116 :: r => (parseStrBodyF f r).map (fun p => (9 :: p.1, p.2))
  | f + 1, 92 :: 117 :: h1 :: h2 :: h3 :: h4 :: r2 =>
    match hexVal h1, hexVal h2, hexVal h3, hexVal h4 with
    | some a, some b, some c, some d =>
      let n := ((a * 16 + b) * 16 + c) * 16 + d
      if 0xD800 ≤ n ∧ n < 0xDC00 then
        match r2 with
        | 92 :: 117 :: g1 :: g2 :: g3 :: g4 :: r4 =>
          match hexVal g1, hexVal g2, hexVal g3, hexVal g4 with
          | some a2, some b2, some c2, some d2 =>
            let m := ((a2 * 16 + b2) * 16 + c2) * 16 + d2
            if 0xDC00 ≤ m ∧ m < 0xE000 then
              (parseStrBodyF f r4).map
                (fun p => (utf8N (0x10000 + (n - 0xD800) * 0x400 + (m - 0xDC00)) ++ p.1, p.2))
            else (parseStrBodyF f r2).map (fun p => (utf8N 0xFFFD ++ p.1, p.2))
          | _, _, _, _ => (parseStrBodyF f r2).map (fun p => (utf8N 0xFFFD ++ p.1, p.2))
        | _ => (parseStrBodyF f r2).map (fun p => (utf8N 0xFFFD ++ p.1, p.2))
      else if 0xDC00 ≤ n ∧ n < 0xE000 then
        (parseStrBodyF f r2).map (fun p => (utf8N 0xFFFD ++ p.1, p.2))
      else (parseStrBodyF f r2).map (fun p => (utf8N n ++ p.1, p.2))
    | _, _, _, _ => none
  | _ + 1, 92 :: _ => none
  | f + 1, b :: r => if b < 32 then none else (parseStrBodyF f r).map (fun p => (b :: p.1, p.2))

/-- A JSON string body, with sufficient fuel supplied. -/
def parseStrBody (s : GoStr) : Option (GoStr × GoStr) := parseStrBodyF (s.length + 1) s

/-- Fraction part of a JSON number (optional). -/
def parseFrac (acc : GoStr) (s : GoStr) : Option (GoStr × GoStr) :=
  match s with
  | 46 :: r =>
    match r.span isDigitB with
    | ([], _) => none
    | (ds, r2) => some (acc ++ 46 :: ds, r2)
  | _ => some (acc, s)

/-- Exponent part of a JSON number (optional). -/
def parseExp (acc : GoStr) (s : GoStr) : Option (GoStr × GoStr) :=
  match s with
  | e :: r =>
    if e = 101 ∨ e = 69 then
      match r with
      | sg :: r2 =>
        if sg = 43 ∨ sg = 45 then
          match r2.span isDigitB with
          | ([], _) => none
          | (ds, r3) => some (acc ++ e :: sg :: ds, r3)
        else
          match r.span isDigitB with
          | ([], _) => none
          | (ds, r3) => some (acc ++ e :: ds, r3)
      | [] => none
    else some (acc, s)
  | [] => some (acc, s)

def afterInt (acc : GoStr) (s : GoStr) : Option (GoStr × GoStr) :=
  (parseFrac acc s).bind (fun p => parseExp p.1 p.2)

/-- A JSON number per the grammar (`-?(0|[1-9][0-9]*)(\.[0-9]+)?([eE][+-]?[0-9]+)?`);
returns the raw bytes consumed. -/
def parseNum (s : GoStr) : Option (GoStr × GoStr) :=
  match s with
  | 45 :: s1 =>
    match s1 with
    | 48 :: r => afterInt [45, 48] r
    | b :: r =>
      if 49 ≤ b ∧ b ≤ 57 then
        match r.span isDigitB with
        | (ds, r2) => afterInt (45 :: b :: ds) r2
      else none
    | [] => none
  | 48 :: r => afterInt [48] r
  | b :: r =>
    if 49 ≤ b ∧ b ≤ 57 then
      match r.span isDigitB with
      | (ds, r2) => afterInt (b :: ds) r2
    else none
  | [] => none

mutual

/-- A JSON value, fuel-structured (the fuel strictly decreases on every
nested call; `jsonParse` supplies more than enough). -/
def parseVal : Nat → GoStr → Option (JValue × GoStr)
  | 0, _ => none
  | f + 1, s =>
    match jSkipWs s with
    | 123 :: r => parseObj f r
    | 91 :: r => parseArr f r
    | 34 :: r => (parseStrBody r).map (fun p => (JValue.jstr p.1, p.2))
    | 116 :: 114 :: 117 :: 101 :: r => some (JValue.jbool true, r)
    | 102 :: 97 :: 108 :: 115 :: 101 :: r => some (JValue.jbool false, r)
    | 110 :: 117 :: 108 :: 108 :: r => some (JValue.jnull, r)
    | s2 => (parseNum s2).map (fun p => (JValue.jnum p.1, p.2))

/-- A JSON object, positioned after the opening brace. -/
def parseObj : Nat → GoStr → Option (JValue × GoStr)
  | 0, _ => none
  | f + 1, s =>
    match jSkipWs s with
    | 125 :: r => some (JValue.jobj [], r)
    | 34 :: r => parseMembers f r []
    | _ => none

/-- Object members, positioned after the opening quote of a key. -/
def parseMembers : Nat → GoStr → List (GoStr × JValue) → Option (JValue × GoStr)
  | 0, _, _ => none
  | f + 1, s, acc =>
    match parseStrBody s with
    | none => none
    | some (key, r1) =>
      match jSkipWs r1 with
      | 58 :: r2 =>
        match parseVal f r2 with
        | none => none
        | some (v, r3) =>
          match jSkipWs r3 with
          | 44 :: r4 =>
            match jSkipWs r4 with
            | 34 :: r5 => parseMembers f r5 (acc ++ [(key, v)])
            | _ => none
          | 125 :: r4 => some (JValue.jobj (acc ++ [(key, v)]), r4)
          | _ => none
      | _ => none

/-- A JSON array, positioned after the opening bracket. -/
def parseArr : Nat → GoStr → Option (JValue × GoStr)
  | 0, _ => none
  | f + 1, s =>
    match jSkipWs s with
    | 93 :: r => some (JValue.jarr [], r)
    | _ => parseElems f s []

/-- Array elements. -/
def parseElems : Nat → GoStr → List JValue → Option (JValue × GoStr)
  | 0, _, _ => none
  | f + 1, s, acc =>
    match parseVal f s with
    | none => none
    | some (v, r) =>
      match jSkipWs r with
      | 44 :: r2 => parseElems f r2 (acc ++ [v])
      | 93 :: r2 => some (JValue.jarr (acc ++ [v]), r2)
      | _ => none

end

/-- Top-level JSON parse: one value, then only whitespace.  This is the
validity check `json.Unmarshal` performs before any decoding. -/
def jsonParse (s : GoStr) : Option JValue :=
  match parseVal (4 * s.length + 16) s with
  | some (v, rest) => if jSkipWs rest = [] then some v else none
  | none => none

/-- ASCII lower-casing of a byte. -/
def lowerByte (b : Nat) : Nat := if 65 ≤ b ∧ b ≤ 90 then b + 32 else b

/-- Whether an object member name matches the field key `cwd`:
`encoding/json` prefers an exact match but also accepts a case-insensitive
one (for the all-ASCII key `cwd` the fold is ASCII case-folding). -/
def keyMatchesCwd (k : GoStr) : Bool := k.map lowerByte = gs "cwd"

/-- The value `Unmarshal` leaves in the `Cwd` field for a top-level object:
members are processed in order, a member whose name matches with a string
value assigns the field, any other member leaves it unchanged. -/
def cwdField (fs : List (GoStr × JValue)) : GoStr :=
  fs.foldl
    (fun acc kv =>
      match kv.2 with
      | JValue.jstr v => if keyMatchesCwd kv.1 then v else acc
      | _ => acc)
    []

/-- The `Cwd` field after `json.Unmarshal(b, &in)` with the error ignored. -/
def unmarshalCwd (s : GoStr) : GoStr :=
  match jsonParse s with
  | some (JValue.jobj fs) => cwdField fs
  | _ => []

/-- `readCwd` from main.go, over the bytes read from standard input. -/
def readCwd (s : GoStr) : GoStr :=
  if s = [] then [] else trimSpace (unmarshalCwd s)

/-- The working-directory resolution in `main`: use `readCwd`; when it is
empty, fall back to `os.Getwd()` (passed as `getwd`; `none` models a
failing `Getwd`, which leaves the empty string in place). -/
def mainCwd (stdin : GoStr) (getwd : Option GoStr) : GoStr :=
  let cwd := readCwd stdin
  if cwd = [] then
    match getwd with
    | some d => d
    | none => cwd
  else cwd

example : gs "ab" = [97, 98] := by decide
example : gs "⎇" = [226, 142, 135] := by decide
example : trimSpace (gs "  a b  ") = gs "a b" := by decide
example : fieldsGo (gs " +2  -3 ") = [gs "+2", gs "-3"] := by decide
example : List.splitOn 10 (gs "a\nb\n") = [gs "a", gs "b", []] := by decide
example : (gs "# ").isPrefixOf (gs "# branch") = true := by decide
example : containsGo (gs "fetch") (gs "a fetch: b") = true := by decide
example : containsGo (gs "fetch") (gs "a fetc b") = false := by decide
example : cutPfx (gs "ab") (gs "abc") = gs "c" := by decide
example : wrap64 9999999999999999999 = -8446744073709551617 := by decide
example : parseSigned (gs "+123") = 123 := by decide
example : parseSigned (gs "-456") = 456 := by decide
example : parseSigned (gs "123abc") = 123 := by decide
example : parseSigned (gs "-") = 0 := by decide
example : parseSigned (gs "") = 0 := by decide
example : parseStatus (gs "# branch.head main\n# branch.upstream origin/main\n# branch.ab +0 -0") = ⟨gs "main", 0, 0, false, false⟩ := by decide
example : parseStatus (gs "# branch.head develop\n# branch.ab +1 -0\n1 M. N... 100644 100644 100644 abc123 def456 tracked.txt\n? untracked.txt") = ⟨gs "develop", 1, 0, true, true⟩ := by decide
example : parseStatus (gs "# branch.head main\n# branch.ab +5") = ⟨gs "main", 0, 0, false, false⟩ := by decide
example : parseStatus (gs "") = ⟨[], 0, 0, false, false⟩ := by decide
example : shorten (gs "very-long-feature-branch-name") 15 = gs "very-long-fe..." := by decide
example : shorten (gs "main") 3 = gs "main" := by decide
example : render (gs "1") ⟨gs "myproject", gs "main", 1, 2, false, true, true⟩ = gs "myproject on ⎇ main ↑1 ↓2" := by decide
example : render [] ⟨gs "myproject", gs "main", 0, 0, false, false, true⟩ = gs "myproject on \x1b[1;38;5;82m⎇\x1b[0m main" := by decide
example : render [] ⟨gs "myproject", gs "feature", 2, 1, false, false, true⟩ = gs "myproject on \x1b[1;38;5;82m⎇\x1b[0m feature \x1b[38;5;82m↑2\x1b[0m \x1b[38;5;196m↓1\x1b[0m" := by decide
example : readCwd (gs "\x7b\"cwd\": \"/home/user/project\"\x7d") = gs "/home/user/project" := by decide
example : readCwd (gs "") = gs "" := by decide
example : readCwd (gs "\x7binvalid json\x7d") = gs "" := by decide
example : readCwd (gs "\x7b\"cwd\": \"  /home/user/project  \"\x7d") = gs "/home/user/project" := by decide
example : readCwd (gs "\x7b\"cwd\": \"\"\x7d") = gs "" := by decide
example : readCwd (gs "\x7b\"other\": \"value\"\x7d") = gs "" := by decide
example : readCwd (gs "\x7b\"CWD\": \"/tmp\"\x7d") = gs "/tmp" := by decide
example : readCwd (gs "\x7b\"cwd\": 5\x7d") = gs "" := by decide
example : readCwd (gs "\x7b\"cwd\": \"/a\", \"cwd\": \"/b\"\x7d") = gs "/b" := by decide
example : readCwd (gs "\x7b\"cwd\": \"/a\"") = gs "" := by decide
example : readCwd (gs "\x7b\"nested\": \x7b\"cwd\": \"/x\"\x7d\x7d") = gs "" := by decide
example : readCwd (gs "\x7b\"cwd\": \"\\u0041\\n\"\x7d") = gs "A" := by decide
example : readCwd (gs "[1, 2.5e3, true, null, \"x\"]") = gs "" := by decide
example : readCwd (gs "\x7b\"cwd\": \"/a\",\x7d") = gs "" := by decide
example : mainCwd (gs "") (some (gs "/fallback")) = gs "/fallback" := by decide
example : mainCwd (gs "\x7b\"cwd\":\"/x\"\x7d") (some (gs "/fallback")) = gs "/x" := by decide
example : getFetchInterval [] = 1800000000000 := by decide
example : getFetchInterval (gs "5") = 300000000000 := by decide
example : getFetchInterval (gs "0") = 1800000000000 := by decide
example : getFetchInterval (gs "abc") = 1800000000000 := by decide
example : parseInt64 (gs "origin/main@\x7b1700000000\x7d:") = none := by decide
example : shouldFetch 1800000000000 [] [] 0 = true := by decide
example : shouldFetch 1800000000000 (gs "origin/main") (gs "abc1234 origin/main@\x7b1700000000\x7d: fetch origin: fast-forward") 1700000600000000000 = true := by decide

/-! ## Derived notions used by the statements about `parseStatus` -/

/-- A line that (whitespace-trimmed, as the loop trims it) starts the
`# branch.head ` header. -/
def hdLine (l : GoStr) : Bool := (gs "# branch.head ").isPrefixOf (trimSpace l)

/-- A line that (whitespace-trimmed) starts the `# branch.ab ` header. -/
def abLine (l : GoStr) : Bool := (gs "# branch.ab ").isPrefixOf (trimSpace l)

/-- The ahead/behind pair a line contributes, if any: an `# branch.ab `
line with exactly two fields after the prefix. -/
def abVals (l : GoStr) : Option (Int × Int) :=
  if (gs "# branch.ab ").isPrefixOf (trimSpace l) then
    match fieldsGo (cutPfx (gs "# branch.ab") (trimSpace l)) with
    | [x, y] => some (parseSigned x, parseSigned y)
    | _ => none
  else none

/-- The trimmed text of the last `# branch.head ` line, if any. -/
def lastHd : List GoStr → Option GoStr
  | [] => none
  | l :: rest =>
    match lastHd rest with
    | some v => some v
    | none => if hdLine l then some (trimSpace l) else none

/-- The contribution of the last line with a well-formed `# branch.ab `
payload, if any. -/
def lastAb : List GoStr → Option (Int × Int)
  | [] => none
  | l :: rest =>
    match lastAb rest with
    | some v => some v
    | none => abVals l

/-- The string after the optional single leading sign. -/
def stripSign (s : GoStr) : GoStr :=
  match s with
  | [] => []
  | b :: r => if b = 43 ∨ b = 45 then r else b :: r

/-- The numeric magnitude of the digit prefix of a (possibly signed)
decimal field, as an unbounded natural number. -/
def digitsPrefVal (s : GoStr) : Nat :=
  ((stripSign s).takeWhile isDigitB).foldl (fun n b => n * 10 + (b - 48)) 0

/-- A well-formed ahead/behind field as git prints it: a sign followed by
digits only, with a magnitude below `2^63` (so no wrap-around occurs). -/
def numOk (f : GoStr) : Prop :=
  stripSign f ≠ [] ∧ (stripSign f).all isDigitB = true
    ∧ digitsPrefVal f < 9223372036854775808

instance numOk.instDecidable (f : GoStr) : Decidable (numOk f) := by
  unfold numOk
  infer_instance

/-- The string value of the last object member whose name matches the
`cwd` field key, if any. -/
def lastCwdStr : List (GoStr × JValue) → Option GoStr
  | [] => none
  | kv :: rest =>
    match lastCwdStr rest with
    | some v => some v
    | none =>
      match kv.2 with
      | JValue.jstr v => if keyMatchesCwd kv.1 then some v else none
      | _ => none

/-! ## Basic facts about the embedding -/

lemma pfx_exists {p l : GoStr} (h : p.isPrefixOf l = true) : ∃ t, p ++ t = l := by
  rw [List.isPrefixOf_iff_prefix] at h
  exact h

lemma trimSpace_nil : trimSpace [] = [] := rfl

/-- `shorten` never lengthens a string beyond `maxLen` once `maxLen > 4`. -/
lemma shorten_len_le (s : GoStr) (maxLen : Int) (h4 : 4 < maxLen) :
    ((shorten s maxLen).length : Int) ≤ maxLen := by
  unfold shorten
  split
  next h =>
    rcases h with h | h
    · omega
    · exact h
  next h =>
    push_neg at h
    have hd : (gs "...").length = 3 := by decide
    rw [List.length_append, List.length_take, hd]
    push_cast
    omega

lemma shorten_len_eq (s : GoStr) (maxLen : Int) (h4 : 4 < maxLen)
    (hl : maxLen < (s.length : Int)) :
    ((shorten s maxLen).length : Int) = maxLen := by
  unfold shorten
  split
  next h =>
    rcases h with h | h <;> omega
  next h =>
    have hd : (gs "...").length = 3 := by decide
    rw [List.length_append, List.length_take, hd]
    push_cast
    omega

lemma shorten_mem {b : Nat} {s : GoStr} {maxLen : Int} (h : b ∈ shorten s maxLen) :
    b ∈ s ∨ b ∈ gs "..." := by
  unfold shorten at h
  split at h
  · exact Or.inl h
  · rcases List.mem_append.1 h with h | h
    · exact Or.inl (List.mem_of_mem_take h)
    · exact Or.inr h

/-- C7: for every string and every `maxLen`, `shorten` returns the string
unchanged when `maxLen ≤ 4` or the byte length is at most `maxLen`;
otherwise it returns the first `maxLen - 3` bytes followed by `...`, whose
byte length is exactly `maxLen`; hence for `maxLen > 4` the result never
exceeds `maxLen` bytes. -/
theorem shorten_spec (s : GoStr) (maxLen : Int) :
    (maxLen ≤ 4 ∨ (s.length : Int) ≤ maxLen → shorten s maxLen = s)
    ∧ (4 < maxLen → maxLen < (s.length : Int) →
        shorten s maxLen = s.take (maxLen - 3).toNat ++ gs "..."
          ∧ ((shorten s maxLen).length : Int) = maxLen)
    ∧ (4 < maxLen → ((shorten s maxLen).length : Int) ≤ maxLen) := by
  refine ⟨fun h => ?_, fun h4 hl => ⟨?_, shorten_len_eq s maxLen h4 hl⟩,
    fun h4 => shorten_len_le s maxLen h4⟩
  · unfold shorten
    rw [if_pos h]
  · unfold shorten
    rw [if_neg]
    push_neg
    exact ⟨by omega, by omega⟩

theorem shorten_spec_witness :
    shorten (gs "very-long-feature-branch-name") 15 = gs "very-long-fe..."
      ∧ shorten (gs "main") 3 = gs "main" := by
  constructor
  · have h := ((shorten_spec (gs "very-long-feature-branch-name") 15).2.1
      (by decide) (by decide)).1
    rw [h]
    decide
  · exact (shorten_spec (gs "main") 3).1 (Or.inl (by decide))

/-- C8: with `STATUSLINE_NO_COLOR=1` both colouring functions are the
identity on `s`; otherwise they wrap `s` in the ANSI sequences
`ESC [ col m … ESC [0m` and `ESC [1; col m … ESC [0m`. -/
theorem colorize_spec (env s col : GoStr) :
    (env = gs "1" → colorize env s col = s ∧ colorizeBold env s col = s)
    ∧ (env ≠ gs "1" →
        colorize env s col = [27] ++ gs "[" ++ col ++ gs "m" ++ s ++ [27] ++ gs "[0m"
          ∧ colorizeBold env s col = [27] ++ gs "[1;" ++ col ++ gs "m" ++ s ++ [27] ++ gs "[0m") := by
  constructor
  · intro h
    unfold colorize colorizeBold
    rw [if_pos h, if_pos h]
    exact ⟨rfl, rfl⟩
  · intro h
    unfold colorize colorizeBold
    rw [if_neg h, if_neg h]
    exact ⟨rfl, rfl⟩

theorem colorize_spec_witness :
    colorize [] (gs "x") colGreen = gs "\x1b[38;5;82mx\x1b[0m"
      ∧ colorize (gs "1") (gs "x") colGreen = gs "x" := by
  constructor
  · rw [((colorize_spec [] (gs "x") colGreen).2 (by decide)).1]
    decide
  · exact ((colorize_spec (gs "1") (gs "x") colGreen).1 rfl).1

/-- C6: for a non-git record, `render` returns exactly the project name:
no icon, branch, arrows, and (as long as the project name itself has none)
no ANSI escape byte, whatever the colour environment says. -/
theorem render_non_git (env : GoStr) (ri : repoInfo) (h : ri.IsGit = false) :
    render env ri = ri.Project
      ∧ ((27 : Nat) ∉ ri.Project → (27 : Nat) ∉ render env ri) := by
  have he : render env ri = ri.Project := by
    unfold render
    rw [h]
    rfl
  exact ⟨he, fun hp => he ▸ hp⟩

theorem render_non_git_witness :
    render [] ⟨gs "myproject", gs "main", 2, 1, true, true, false⟩ = gs "myproject" := by
  exact (render_non_git [] ⟨gs "myproject", gs "main", 2, 1, true, true, false⟩ rfl).1

/-! ## Rendering a git record (C3, C9) -/

lemma natDigsAux_mem {fuel n b : Nat} (h : b ∈ natDigsAux fuel n) : 48 ≤ b ∧ b ≤ 57 := by
  induction fuel generalizing n with
  | zero => simp [natDigsAux] at h
  | succ f ih =>
    rw [natDigsAux] at h
    split at h
    next hn =>
      rcases List.mem_singleton.1 h with rfl
      omega
    next hn =>
      rcases List.mem_append.1 h with h | h
      · exact ih h
      · rcases List.mem_singleton.1 h with rfl
        have := Nat.mod_lt n (show 0 < 10 by decide)
        omega

lemma intToStr_mem {n : Int} {b : Nat} (h : b ∈ intToStr n) :
    b = 45 ∨ (48 ≤ b ∧ b ≤ 57) := by
  unfold intToStr at h
  split at h
  · rcases List.mem_cons.1 h with rfl | h
    · exact Or.inl rfl
    · exact Or.inr (natDigsAux_mem h)
  · exact Or.inr (natDigsAux_mem h)

lemma colorize_mem {env s col : GoStr} {b : Nat} (h : b ∈ colorize env s col) :
    b ∈ s ∨ b ∈ col ∨ b ∈ ([27, 91, 109, 48, 49, 59] : GoStr) := by
  unfold colorize at h
  split at h
  · exact Or.inl h
  · rw [show gs "[" = [91] from rfl, show gs "m" = [109] from rfl,
      show gs "[0m" = [91, 48, 109] from rfl] at h
    simp only [List.append_assoc, List.mem_append, List.mem_cons, List.mem_singleton,
      List.not_mem_nil] at h ⊢
    tauto

lemma colorizeBold_mem {env s col : GoStr} {b : Nat} (h : b ∈ colorizeBold env s col) :
    b ∈ s ∨ b ∈ col ∨ b ∈ ([27, 91, 109, 48, 49, 59] : GoStr) := by
  unfold colorizeBold at h
  split at h
  · exact Or.inl h
  · rw [show gs "[1;" = [91, 49, 59] from rfl, show gs "m" = [109] from rfl,
      show gs "[0m" = [91, 48, 109] from rfl] at h
    simp only [List.append_assoc, List.mem_append, List.mem_cons, List.mem_singleton,
      List.not_mem_nil] at h ⊢
    tauto

lemma iconColor_cases (ri : repoInfo) :
    iconColor ri = colRed ∨ iconColor ri = colYellow ∨ iconColor ri = colGreen := by
  unfold iconColor
  split_ifs <;> simp

lemma ten_not_mem_iconColor (ri : repoInfo) : (10 : Nat) ∉ iconColor ri := by
  rcases iconColor_cases ri with h | h | h <;> rw [h] <;> decide

lemma render_git_eq (env : GoStr) (ri : repoInfo) (hg : ri.IsGit = true) :
    render env ri =
      ri.Project ++ gs " on " ++ colorizeBold env (gs "⎇") (iconColor ri) ++ gs " "
        ++ shorten ri.Branch maxBranchLen
        ++ ((if 0 < ri.Ahead then gs " " ++ colorize env (gs "↑" ++ intToStr ri.Ahead) colGreen else [])
          ++ (if 0 < ri.Behind then gs " " ++ colorize env (gs "↓" ++ intToStr ri.Behind) colRed else [])) := by
  unfold render
  rw [hg]
  rfl

lemma ten_not_mem_arrow (env glyph col : GoStr) (n : Int)
    (hglyph : (10 : Nat) ∉ glyph) (hcol : (10 : Nat) ∉ col) :
    (10 : Nat) ∉ (if 0 < n then gs " " ++ colorize env (glyph ++ intToStr n) col else []) := by
  split
  · intro h
    rcases List.mem_append.1 h with h | h
    · simp [show gs " " = [32] from rfl] at h
    · rcases colorize_mem h with h | h | h
      · rcases List.mem_append.1 h with h | h
        · exact hglyph h
        · rcases intToStr_mem h with h45 | ⟨h1, h2⟩ <;> omega
      · exact hcol h
      · simp at h
  · simp

/-- C3: for a git record whose project and branch contain no newline byte,
`render` produces the single line
`<project> on <icon> <branch-truncated-to-48-bytes>` followed by the
up-arrow segment exactly when `Ahead > 0` and the down-arrow segment
exactly when `Behind > 0`, and the output contains no newline. -/
theorem render_git_spec (env : GoStr) (ri : repoInfo) (hg : ri.IsGit = true)
    (hp : (10 : Nat) ∉ ri.Project) (hb : (10 : Nat) ∉ ri.Branch) :
    render env ri =
      ri.Project ++ gs " on " ++ colorizeBold env (gs "⎇") (iconColor ri) ++ gs " "
        ++ shorten ri.Branch maxBranchLen
        ++ ((if 0 < ri.Ahead then gs " " ++ colorize env (gs "↑" ++ intToStr ri.Ahead) colGreen else [])
          ++ (if 0 < ri.Behind then gs " " ++ colorize env (gs "↓" ++ intToStr ri.Behind) colRed else []))
    ∧ (shorten ri.Branch maxBranchLen).length ≤ 48
    ∧ (10 : Nat) ∉ render env ri := by
  refine ⟨render_git_eq env ri hg, ?_, ?_⟩
  · have h1 := shorten_len_le ri.Branch maxBranchLen (by decide)
    have h2 : maxBranchLen = 48 := rfl
    omega
  · rw [render_git_eq env ri hg]
    intro h
    simp only [List.append_assoc, List.mem_append] at h
    rcases h with h | h | h | h | h | h | h
    · exact hp h
    · revert h; decide
    · rcases colorizeBold_mem h with h | h | h
      · revert h; decide
      · exact ten_not_mem_iconColor ri h
      · revert h; decide
    · revert h; decide
    · rcases shorten_mem h with h | h
      · exact hb h
      · revert h; decide
    · exact ten_not_mem_arrow env (gs "↑") colGreen ri.Ahead (by decide) (by decide) h
    · exact ten_not_mem_arrow env (gs "↓") colRed ri.Behind (by decide) (by decide) h

theorem render_git_spec_witness :
    render [] ⟨gs "myproject", gs "feature", 2, 1, false, false, true⟩ =
      gs "myproject on \x1b[1;38;5;82m⎇\x1b[0m feature \x1b[38;5;82m↑2\x1b[0m \x1b[38;5;196m↓1\x1b[0m"
      ∧ (10 : Nat) ∉ render [] ⟨gs "myproject", gs "feature", 2, 1, false, false, true⟩ := by
  have h := render_git_spec [] ⟨gs "myproject", gs "feature", 2, 1, false, false, true⟩
    rfl (by decide) (by decide)
  refine ⟨?_, h.2.2⟩
  rw [h.1]
  decide

/-- C9: the untracked flag wins the icon colour: red whenever untracked
files are present (even together with tracked changes), yellow when only
tracked changes are present, green when the tree is clean; and (with
colours on) the bold icon escape built from that colour occurs in the
rendered line. -/
theorem render_icon_priority (env : GoStr) (ri : repoInfo) (hg : ri.IsGit = true)
    (hc : env ≠ gs "1") :
    ([27] ++ gs "[1;" ++ iconColor ri ++ gs "m" ++ gs "⎇" ++ [27] ++ gs "[0m") <:+: render env ri
    ∧ (ri.HasUntracked = true → iconColor ri = colRed)
    ∧ (ri.HasUntracked = false → ri.HasTracked = true → iconColor ri = colYellow)
    ∧ (ri.HasUntracked = false → ri.HasTracked = false → iconColor ri = colGreen) := by
  refine ⟨?_, ?_, ?_, ?_⟩
  · refine ⟨ri.Project ++ gs " on ",
      gs " " ++ shorten ri.Branch maxBranchLen
        ++ ((if 0 < ri.Ahead then gs " " ++ colorize env (gs "↑" ++ intToStr ri.Ahead) colGreen else [])
          ++ (if 0 < ri.Behind then gs " " ++ colorize env (gs "↓" ++ intToStr ri.Behind) colRed else [])), ?_⟩
    rw [render_git_eq env ri hg]
    unfold colorizeBold
    rw [if_neg hc]
    simp [List.append_assoc]
  · intro h
    unfold iconColor
    rw [h]
    rfl
  · intro hu ht
    unfold iconColor
    rw [hu, ht]
    rfl
  · intro hu ht
    unfold iconColor
    rw [hu, ht]
    rfl

theorem render_icon_priority_witness :
    ([27] ++ gs "[1;" ++ iconColor ⟨gs "p", gs "b", 0, 0, true, true, true⟩ ++ gs "m" ++ gs "⎇"
        ++ [27] ++ gs "[0m") <:+: render [] ⟨gs "p", gs "b", 0, 0, true, true, true⟩
      ∧ iconColor ⟨gs "p", gs "b", 0, 0, true, true, true⟩ = colRed := by
  have h := render_icon_priority [] ⟨gs "p", gs "b", 0, 0, true, true, true⟩ rfl (by decide)
  exact ⟨h.1, h.2.1 rfl⟩

/-! ## Facts about the porcelain markers -/

@[simp] lemma pfx_nil_hash : (gs "#").isPrefixOf ([] : GoStr) = false := rfl

@[simp] lemma pfx_nil_hd : (gs "# branch.head ").isPrefixOf ([] : GoStr) = false := rfl

@[simp] lemma pfx_nil_ab : (gs "# branch.ab ").isPrefixOf ([] : GoStr) = false := rfl

@[simp] lemma pfx_nil_un : (gs "? ").isPrefixOf ([] : GoStr) = false := rfl

@[simp] lemma pfx_nil_tr1 : (gs "1 ").isPrefixOf ([] : GoStr) = false := rfl

@[simp] lemma pfx_nil_tr2 : (gs "2 ").isPrefixOf ([] : GoStr) = false := rfl

lemma hash_of_hd {l : GoStr} (h : (gs "# branch.head ").isPrefixOf l = true) :
    (gs "#").isPrefixOf l = true := by
  obtain ⟨t, rfl⟩ := pfx_exists h
  rfl

lemma hash_of_ab {l : GoStr} (h : (gs "# branch.ab ").isPrefixOf l = true) :
    (gs "#").isPrefixOf l = true := by
  obtain ⟨t, rfl⟩ := pfx_exists h
  rfl

lemma not_ab_of_hd {l : GoStr} (h : (gs "# branch.head ").isPrefixOf l = true) :
    (gs "# branch.ab ").isPrefixOf l = false := by
  obtain ⟨t, rfl⟩ := pfx_exists h
  rfl

lemma not_hd_of_ab {l : GoStr} (h : (gs "# branch.ab ").isPrefixOf l = true) :
    (gs "# branch.head ").isPrefixOf l = false := by
  obtain ⟨t, rfl⟩ := pfx_exists h
  rfl

lemma hd13_of_hd {l : GoStr} (h : (gs "# branch.head ").isPrefixOf l = true) :
    (gs "# branch.head").isPrefixOf l = true := by
  obtain ⟨t, rfl⟩ := pfx_exists h
  rfl

lemma ab12_of_ab {l : GoStr} (h : (gs "# branch.ab ").isPrefixOf l = true) :
    (gs "# branch.ab").isPrefixOf l = true := by
  obtain ⟨t, rfl⟩ := pfx_exists h
  rfl

lemma no_hash_of_un {l : GoStr} (h : (gs "? ").isPrefixOf l = true) :
    (gs "#").isPrefixOf l = false := by
  obtain ⟨t, rfl⟩ := pfx_exists h
  rfl

lemma no_hash_of_tr1 {l : GoStr} (h : (gs "1 ").isPrefixOf l = true) :
    (gs "#").isPrefixOf l = false := by
  obtain ⟨t, rfl⟩ := pfx_exists h
  rfl

lemma no_hash_of_tr2 {l : GoStr} (h : (gs "2 ").isPrefixOf l = true) :
    (gs "#").isPrefixOf l = false := by
  obtain ⟨t, rfl⟩ := pfx_exists h
  rfl

lemma no_un_of_tr1 {l : GoStr} (h : (gs "1 ").isPrefixOf l = true) :
    (gs "? ").isPrefixOf l = false := by
  obtain ⟨t, rfl⟩ := pfx_exists h
  rfl

lemma no_un_of_tr2 {l : GoStr} (h : (gs "2 ").isPrefixOf l = true) :
    (gs "? ").isPrefixOf l = false := by
  obtain ⟨t, rfl⟩ := pfx_exists h
  rfl

lemma nonempty_of_pfx {p l : GoStr} (hp : p ≠ []) (h : p.isPrefixOf l = true) : l ≠ [] := by
  obtain ⟨t, rfl⟩ := pfx_exists h
  intro hl
  exact hp (List.append_eq_nil.1 hl).1

lemma cutPfx_eq {p l : GoStr} (h : p.isPrefixOf l = true) :
    cutPfx p l = l.drop p.length := by
  unfold cutPfx
  rw [if_pos h]

/-! ## Per-line behaviour of the `parseStatus` loop body -/

lemma statusLine_hasUntracked (st : gitStatus) (l : GoStr) :
    (statusLine st l).hasUntracked
      = (st.hasUntracked || (gs "? ").isPrefixOf (trimSpace l)) := by
  simp only [statusLine]
  by_cases h0 : trimSpace l = []
  · rw [if_pos h0, h0, pfx_nil_un, Bool.or_false]
  · rw [if_neg h0]
    by_cases hh : (gs "#").isPrefixOf (trimSpace l) = true
    · rw [if_pos hh]
      have hun : (gs "? ").isPrefixOf (trimSpace l) = false := by
        cases hq : (gs "? ").isPrefixOf (trimSpace l)
        · rfl
        · rw [no_hash_of_un hq] at hh
          simp at hh
      rw [hun, Bool.or_false]
      split_ifs
      · rfl
      · split <;> rfl
      · rfl
    · rw [if_neg hh]
      by_cases hq : (gs "? ").isPrefixOf (trimSpace l) = true
      · rw [if_pos hq, hq, Bool.or_true]
      · rw [if_neg hq, Bool.eq_false_iff.2 hq, Bool.or_false]
        split_ifs <;> rfl

lemma statusLine_hasTracked (st : gitStatus) (l : GoStr) :
    (statusLine st l).hasTracked
      = (st.hasTracked
          || ((gs "1 ").isPrefixOf (trimSpace l) || (gs "2 ").isPrefixOf (trimSpace l))) := by
  simp only [statusLine]
  by_cases h0 : trimSpace l = []
  · rw [if_pos h0, h0, pfx_nil_tr1, pfx_nil_tr2, Bool.or_self, Bool.or_false]
  · rw [if_neg h0]
    by_cases hh : (gs "#").isPrefixOf (trimSpace l) = true
    · rw [if_pos hh]
      have h1 : (gs "1 ").isPrefixOf (trimSpace l) = false := by
        cases hq : (gs "1 ").isPrefixOf (trimSpace l)
        · rfl
        · rw [no_hash_of_tr1 hq] at hh
          simp at hh
      have h2 : (gs "2 ").isPrefixOf (trimSpace l) = false := by
        cases hq : (gs "2 ").isPrefixOf (trimSpace l)
        · rfl
        · rw [no_hash_of_tr2 hq] at hh
          simp at hh
      rw [h1, h2, Bool.or_self, Bool.or_false]
      split_ifs
      · rfl
      · split <;> rfl
      · rfl
    · rw [if_neg hh]
      by_cases hq : (gs "? ").isPrefixOf (trimSpace l) = true
      · have h1 : (gs "1 ").isPrefixOf (trimSpace l) = false := by
          cases hx : (gs "1 ").isPrefixOf (trimSpace l)
          · rfl
          · rw [no_un_of_tr1 hx] at hq
            simp at hq
        have h2 : (gs "2 ").isPrefixOf (trimSpace l) = false := by
          cases hx : (gs "2 ").isPrefixOf (trimSpace l)
          · rfl
          · rw [no_un_of_tr2 hx] at hq
            simp at hq
        rw [if_pos hq, h1, h2, Bool.or_self, Bool.or_false]
      · rw [if_neg hq]
        by_cases htr : ((gs "1 ").isPrefixOf (trimSpace l)
            || (gs "2 ").isPrefixOf (trimSpace l)) = true
        · rw [if_pos htr, htr, Bool.or_true]
        · rw [if_neg htr, Bool.eq_false_iff.2 htr, Bool.or_false]

lemma statusLine_branch (st : gitStatus) (l : GoStr) :
    (statusLine st l).branch =
      (if hdLine l then trimSpace ((trimSpace l).drop 13) else st.branch) := by
  simp only [statusLine, hdLine]
  by_cases h0 : trimSpace l = []
  · rw [if_pos h0,
      if_neg (show ¬((gs "# branch.head ").isPrefixOf (trimSpace l) = true) by rw [h0]; simp)]
  · rw [if_neg h0]
    by_cases hh : (gs "#").isPrefixOf (trimSpace l) = true
    · rw [if_pos hh]
      by_cases hd : (gs "# branch.head ").isPrefixOf (trimSpace l) = true
      · rw [if_pos hd, if_pos hd, cutPfx_eq (hd13_of_hd hd)]
        rfl
      · rw [if_neg hd, if_neg hd]
        split_ifs
        · split <;> rfl
        · rfl
    · rw [if_neg hh]
      have hd : (gs "# branch.head ").isPrefixOf (trimSpace l) = false := by
        cases hq : (gs "# branch.head ").isPrefixOf (trimSpace l)
        · rfl
        · rw [hash_of_hd hq] at hh
          simp at hh
      rw [if_neg (show ¬((gs "# branch.head ").isPrefixOf (trimSpace l) = true) by simp [hd])]
      split_ifs <;> rfl

lemma statusLine_ab (st : gitStatus) (l : GoStr) :
    ((statusLine st l).ahead, (statusLine st l).behind) =
      (abVals l).getD (st.ahead, st.behind) := by
  simp only [statusLine, abVals]
  by_cases h0 : trimSpace l = []
  · rw [if_pos h0,
      if_neg (show ¬((gs "# branch.ab ").isPrefixOf (trimSpace l) = true) by rw [h0]; simp)]
    rfl
  · rw [if_neg h0]
    by_cases hh : (gs "#").isPrefixOf (trimSpace l) = true
    · rw [if_pos hh]
      by_cases hd : (gs "# branch.head ").isPrefixOf (trimSpace l) = true
      · rw [if_pos hd,
          if_neg (show ¬((gs "# branch.ab ").isPrefixOf (trimSpace l) = true) by
            simp [not_ab_of_hd hd])]
        rfl
      · rw [if_neg hd]
        by_cases hab : (gs "# branch.ab ").isPrefixOf (trimSpace l) = true
        · rw [if_pos hab, if_pos hab]
          rcases hfs : fieldsGo (cutPfx (gs "# branch.ab") (trimSpace l)) with _ | ⟨x, rest⟩
          · rfl
          · rcases rest with _ | ⟨y, rest2⟩
            · rfl
            · rcases rest2 with _ | ⟨z, rest3⟩ <;> rfl
        · rw [if_neg hab,
            if_neg (show ¬((gs "# branch.ab ").isPrefixOf (trimSpace l) = true) from hab)]
          rfl
    · rw [if_neg hh]
      have hab : (gs "# branch.ab ").isPrefixOf (trimSpace l) = false := by
        cases hq : (gs "# branch.ab ").isPrefixOf (trimSpace l)
        · rfl
        · rw [hash_of_ab hq] at hh
          simp at hh
      rw [if_neg (show ¬((gs "# branch.ab ").isPrefixOf (trimSpace l) = true) by simp [hab])]
      split_ifs <;> rfl

/-! ## The fold over all lines -/

lemma foldl_hasUntracked (ls : List GoStr) (st : gitStatus) :
    (ls.foldl statusLine st).hasUntracked
      = (st.hasUntracked || ls.any (fun l => (gs "? ").isPrefixOf (trimSpace l))) := by
  induction ls generalizing st with
  | nil => simp
  | cons l ls ih =>
    rw [List.foldl_cons, List.any_cons, ih, statusLine_hasUntracked, Bool.or_assoc]

lemma foldl_hasTracked (ls : List GoStr) (st : gitStatus) :
    (ls.foldl statusLine st).hasTracked
      = (st.hasTracked || ls.any (fun l =>
          (gs "1 ").isPrefixOf (trimSpace l) || (gs "2 ").isPrefixOf (trimSpace l))) := by
  induction ls generalizing st with
  | nil => simp
  | cons l ls ih =>
    rw [List.foldl_cons, List.any_cons, ih, statusLine_hasTracked, Bool.or_assoc]

lemma foldl_branch (ls : List GoStr) (st : gitStatus) :
    (ls.foldl statusLine st).branch =
      (match lastHd ls with
       | some m => trimSpace (m.drop 13)
       | none => st.branch) := by
  induction ls generalizing st with
  | nil => rfl
  | cons l ls ih =>
    rw [List.foldl_cons, ih]
    simp only [lastHd]
    rcases h : lastHd ls with _ | m
    · show (statusLine st l).branch = _
      rw [statusLine_branch]
      split_ifs <;> rfl
    · rfl

lemma foldl_ab (ls : List GoStr) (st : gitStatus) :
    ((ls.foldl statusLine st).ahead, (ls.foldl statusLine st).behind) =
      (lastAb ls).getD (st.ahead, st.behind) := by
  induction ls generalizing st with
  | nil => rfl
  | cons l ls ih =>
    rw [List.foldl_cons, ih]
    simp only [lastAb]
    rcases h : lastAb ls with _ | v
    · show ((statusLine st l).ahead, (statusLine st l).behind) = _
      exact statusLine_ab st l
    · rfl

/-! ## Locating the unique header lines -/

lemma lastHd_none {ls : List GoStr} (h : ∀ l ∈ ls, hdLine l = false) : lastHd ls = none := by
  induction ls with
  | nil => rfl
  | cons x rest ih =>
    simp only [lastHd]
    rw [ih (fun y hy => h y (List.mem_cons_of_mem _ hy)),
      if_neg (show ¬(hdLine x = true) by simp [h x (List.mem_cons_self _ _)])]

lemma abVals_none {l : GoStr} (h : abLine l = false) : abVals l = none := by
  unfold abVals
  unfold abLine at h
  rw [if_neg (by simp [h])]

lemma lastAb_none {ls : List GoStr} (h : ∀ l ∈ ls, abLine l = false) : lastAb ls = none := by
  induction ls with
  | nil => rfl
  | cons x rest ih =>
    simp only [lastAb]
    rw [ih (fun y hy => h y (List.mem_cons_of_mem _ hy)),
      abVals_none (h x (List.mem_cons_self _ _))]

lemma lastHd_unique {ls : List GoStr} {l : GoStr} (hl : hdLine l = true) :
    l ∈ ls → ls.countP hdLine ≤ 1 → lastHd ls = some (trimSpace l) := by
  induction ls with
  | nil => intro hmem _; exact absurd hmem (List.not_mem_nil l)
  | cons x rest ih =>
    intro hmem hu
    rcases List.mem_cons.1 hmem with rfl | hmem2
    · have hcnt : rest.countP hdLine = 0 := by
        rw [List.countP_cons] at hu
        simp only [hl, if_true] at hu
        omega
      have hrest : lastHd rest = none := lastHd_none (fun y hy =>
        Bool.eq_false_iff.2 (List.countP_eq_zero.1 hcnt y hy))
      simp only [lastHd]
      rw [hrest, if_pos hl]
    · have hu2 : rest.countP hdLine ≤ 1 := by rw [List.countP_cons] at hu; omega
      simp only [lastHd]
      rw [ih hmem2 hu2]

lemma lastAb_unique {ls : List GoStr} {l : GoStr} (hl : abLine l = true) :
    l ∈ ls → ls.countP abLine ≤ 1 → lastAb ls = abVals l := by
  induction ls with
  | nil => intro hmem _; exact absurd hmem (List.not_mem_nil l)
  | cons x rest ih =>
    intro hmem hu
    rcases List.mem_cons.1 hmem with rfl | hmem2
    · have hcnt : rest.countP abLine = 0 := by
        rw [List.countP_cons] at hu
        simp only [hl, if_true] at hu
        omega
      have hrest : lastAb rest = none := lastAb_none (fun y hy =>
        Bool.eq_false_iff.2 (List.countP_eq_zero.1 hcnt y hy))
      simp only [lastAb]
      rw [hrest]
    · have hx : abLine x = false := by
        have hpos : 0 < rest.countP abLine := List.countP_pos_iff.2 ⟨l, hmem2, hl⟩
        rw [List.countP_cons] at hu
        cases hxv : abLine x
        · rfl
        · simp only [hxv, if_true] at hu
          omega
      have hu2 : rest.countP abLine ≤ 1 := by rw [List.countP_cons] at hu; omega
      simp only [lastAb]
      rw [ih hmem2 hu2]
      rcases hv : abVals l with _ | v
      · exact abVals_none hx
      · rfl

/-! ## `parseSigned` without overflow -/

lemma wrap64_id {m : Int} (h1 : -9223372036854775808 ≤ m)
    (h2 : m < 9223372036854775808) : wrap64 m = m := by
  unfold wrap64
  rw [Int.emod_eq_of_lt (by omega) (by omega)]
  omega

lemma digitsFold_mono (l : GoStr) (n : Nat) :
    n ≤ l.foldl (fun a b => a * 10 + (b - 48)) n := by
  induction l generalizing n with
  | nil => exact Nat.le_refl n
  | cons b r ih =>
    rw [List.foldl_cons]
    exact Nat.le_trans (by omega) (ih (n * 10 + (b - 48)))

lemma psLoop_no_overflow (l : GoStr) (n : Nat)
    (h : (l.takeWhile isDigitB).foldl (fun a b => a * 10 + (b - 48)) n
      < 9223372036854775808) :
    psLoop (n : Int) l
      = ((l.takeWhile isDigitB).foldl (fun a b => a * 10 + (b - 48)) n : Nat) := by
  induction l generalizing n with
  | nil => rfl
  | cons b r ih =>
    by_cases hb : isDigitB b = true
    · have hb2 : 48 ≤ b ∧ b ≤ 57 := by
        simpa [isDigitB, Bool.and_eq_true, decide_eq_true_eq] using hb
      rw [List.takeWhile_cons_of_pos hb, List.foldl_cons] at h ⊢
      simp only [psLoop]
      rw [if_neg (by omega)]
      have hcast : (n : Int) * 10 + ((b : Int) - 48) = ((n * 10 + (b - 48) : Nat) : Int) := by
        have hble := hb2.1
        push_cast [Nat.cast_sub hble]
        ring
      have hlt : (n * 10 + (b - 48) : Nat) < 9223372036854775808 :=
        Nat.lt_of_le_of_lt (digitsFold_mono _ _) h
      rw [hcast, wrap64_id (by omega) (by exact_mod_cast hlt)]
      exact ih (n * 10 + (b - 48)) h
    · rw [List.takeWhile_cons_of_neg hb] at h ⊢
      have hb2 : b < 48 ∨ 57 < b := by
        simp [isDigitB, Bool.and_eq_true, decide_eq_true_eq] at hb
        omega
      simp only [psLoop]
      rw [if_pos hb2]
      rfl

lemma parseSigned_val (s : GoStr) (h : digitsPrefVal s < 9223372036854775808) :
    parseSigned s = (digitsPrefVal s : Int) := by
  unfold digitsPrefVal at h ⊢
  cases s with
  | nil => rfl
  | cons b r =>
    simp only [stripSign] at h ⊢
    simp only [parseSigned]
    by_cases hb : b = 43 ∨ b = 45
    · rw [if_pos hb] at h
      rw [if_pos hb, if_pos hb]
      exact_mod_cast psLoop_no_overflow r 0 h
    · rw [if_neg hb] at h
      rw [if_neg hb, if_neg hb]
      exact_mod_cast psLoop_no_overflow (b :: r) 0 h

set_option maxRecDepth 8000 in
/-- C10 (counterexample): `parseSigned` is *not* non-negative on every
input: Go accumulates into a 64-bit `int`, so nineteen nines wrap around
to a negative value. -/
theorem parseSigned_overflow_counterexample :
    parseSigned (gs "9999999999999999999") < 0 := by decide

/-- C10 (amended): `parseSigned` is total, strips one leading sign, and
accumulates the longest digit prefix with 64-bit wrap-around; whenever the
digit-prefix magnitude is below `2^63` (no overflow), the result is
exactly that magnitude, hence non-negative — in particular `-3` parses
to `3`. -/
theorem parseSigned_magnitude (s : GoStr)
    (h : digitsPrefVal s < 9223372036854775808) :
    parseSigned s = (digitsPrefVal s : Int) ∧ 0 ≤ parseSigned s := by
  have e := parseSigned_val s h
  exact ⟨e, by rw [e]; exact Int.natCast_nonneg _⟩

theorem parseSigned_magnitude_witness :
    parseSigned (gs "-3") = 3 ∧ 0 ≤ parseSigned (gs "-3") := by
  have h := parseSigned_magnitude (gs "-3") (by decide)
  refine ⟨?_, h.2⟩
  rw [h.1]
  decide

/-! ## The `parseStatus` claims -/

/-- C1: on `git status --porcelain=2 --branch` text (at most one
`# branch.head ` line, at most one `# branch.ab ` line, lines compared
whitespace-trimmed exactly as the loop trims them), `parseStatus` returns
the branch name taken from the `# branch.head ` line (whitespace-trimmed
after the marker); ahead and behind equal to the numeric magnitudes of the
two fields of the `# branch.ab ` line when it has exactly two fields after
the prefix, each of git form sign-plus-digits below `2^63`, and `0, 0`
otherwise; `hasTracked` exactly when some line starts with `1 ` or `2 `;
and `hasUntracked` exactly when some line starts with `? `. -/
theorem parseStatus_porcelain_spec (s : GoStr)
    (h1 : (List.splitOn 10 s).countP hdLine ≤ 1)
    (h2 : (List.splitOn 10 s).countP abLine ≤ 1) :
    (∀ l ∈ List.splitOn 10 s, hdLine l = true →
      (parseStatus s).branch = trimSpace ((trimSpace l).drop (gs "# branch.head").length))
    ∧ ((parseStatus s).hasTracked = true ↔ ∃ l ∈ List.splitOn 10 s,
        ((gs "1 ").isPrefixOf (trimSpace l) = true ∨ (gs "2 ").isPrefixOf (trimSpace l) = true))
    ∧ ((parseStatus s).hasUntracked = true ↔ ∃ l ∈ List.splitOn 10 s,
        (gs "? ").isPrefixOf (trimSpace l) = true)
    ∧ (∀ l ∈ List.splitOn 10 s, abLine l = true →
        (∀ x y, fieldsGo ((trimSpace l).drop (gs "# branch.ab").length) = [x, y] →
          numOk x → numOk y →
          (parseStatus s).ahead = (digitsPrefVal x : Int)
            ∧ (parseStatus s).behind = (digitsPrefVal y : Int))
        ∧ ((∀ x y, fieldsGo ((trimSpace l).drop (gs "# branch.ab").length) ≠ [x, y]) →
          (parseStatus s).ahead = 0 ∧ (parseStatus s).behind = 0))
    ∧ ((∀ l ∈ List.splitOn 10 s, abLine l = false) →
        (parseStatus s).ahead = 0 ∧ (parseStatus s).behind = 0) := by
  refine ⟨?_, ?_, ?_, ?_, ?_⟩
  · intro l hm hl
    unfold parseStatus
    rw [foldl_branch, lastHd_unique hl hm h1]
    rfl
  · unfold parseStatus
    rw [foldl_hasTracked]
    simp [List.any_eq_true, Bool.or_eq_true]
  · unfold parseStatus
    rw [foldl_hasUntracked]
    simp [List.any_eq_true]
  · intro l hm hl
    have hl2 : (gs "# branch.ab ").isPrefixOf (trimSpace l) = true := hl
    constructor
    · intro x y hfields hx hy
      have hsome : abVals l = some (parseSigned x, parseSigned y) := by
        unfold abVals
        rw [if_pos hl2, cutPfx_eq (ab12_of_ab hl2), hfields]
      have hpair := foldl_ab (List.splitOn 10 s) ⟨[], 0, 0, false, false⟩
      rw [lastAb_unique hl hm h2, hsome] at hpair
      have ha := congrArg Prod.fst hpair
      have hb := congrArg Prod.snd hpair
      simp only [Option.getD_some] at ha hb
      unfold parseStatus
      rw [ha, hb, parseSigned_val x hx.2.2, parseSigned_val y hy.2.2]
      exact ⟨rfl, rfl⟩
    · intro hnot
      have hnone : abVals l = none := by
        unfold abVals
        rw [if_pos hl2, cutPfx_eq (ab12_of_ab hl2)]
        rcases hfs : fieldsGo ((trimSpace l).drop (gs "# branch.ab").length) with _ | ⟨x, rest⟩
        · rfl
        · rcases rest with _ | ⟨y, rest2⟩
          · rfl
          · rcases rest2 with _ | ⟨z, rest3⟩
            · exact absurd hfs (hnot x y)
            · rfl
      have hpair := foldl_ab (List.splitOn 10 s) ⟨[], 0, 0, false, false⟩
      rw [lastAb_unique hl hm h2, hnone] at hpair
      unfold parseStatus
      exact ⟨congrArg Prod.fst hpair, congrArg Prod.snd hpair⟩
  · intro hall
    have hpair := foldl_ab (List.splitOn 10 s) ⟨[], 0, 0, false, false⟩
    rw [lastAb_none hall] at hpair
    unfold parseStatus
    exact ⟨congrArg Prod.fst hpair, congrArg Prod.snd hpair⟩

theorem parseStatus_porcelain_spec_witness :
    (parseStatus (gs "# branch.head main\n# branch.ab +2 -3\n1 M. N... f.txt\n? u.txt")).branch
        = gs "main"
      ∧ (parseStatus (gs "# branch.head main\n# branch.ab +2 -3\n1 M. N... f.txt\n? u.txt")).ahead = 2
      ∧ (parseStatus (gs "# branch.head main\n# branch.ab +2 -3\n1 M. N... f.txt\n? u.txt")).behind = 3
      ∧ (parseStatus (gs "# branch.head main\n# branch.ab +2 -3\n1 M. N... f.txt\n? u.txt")).hasTracked = true
      ∧ (parseStatus (gs "# branch.head main\n# branch.ab +2 -3\n1 M. N... f.txt\n? u.txt")).hasUntracked = true := by
  have h := parseStatus_porcelain_spec
    (gs "# branch.head main\n# branch.ab +2 -3\n1 M. N... f.txt\n? u.txt")
    (by decide) (by decide)
  have hab := (h.2.2.2.1 (gs "# branch.ab +2 -3") (by decide) (by decide)).1
    (gs "+2") (gs "-3") (by decide) (by decide) (by decide)
  refine ⟨?_, ?_, ?_, ?_, ?_⟩
  · rw [h.1 (gs "# branch.head main") (by decide) (by decide)]
    decide
  · rw [hab.1]
    decide
  · rw [hab.2]
    decide
  · exact h.2.1.mpr ⟨gs "1 M. N... f.txt", by decide, Or.inl (by decide)⟩
  · exact h.2.2.1.mpr ⟨gs "? u.txt", by decide, by decide⟩

/-- C5: `parseStatus` is a total function, and on any input none of whose
(whitespace-trimmed) lines starts with `# branch.head `, `# branch.ab `,
`1 `, `2 ` or `? ` — in particular the empty string produced when the git
subprocess fails or times out — it returns the default record: empty
branch, ahead `0`, behind `0`, no tracked changes, no untracked files. -/
theorem parseStatus_defaults (s : GoStr)
    (h : ∀ l ∈ List.splitOn 10 s,
      hdLine l = false ∧ abLine l = false
        ∧ (gs "1 ").isPrefixOf (trimSpace l) = false
        ∧ (gs "2 ").isPrefixOf (trimSpace l) = false
        ∧ (gs "? ").isPrefixOf (trimSpace l) = false) :
    parseStatus s = ⟨[], 0, 0, false, false⟩ := by
  have hbr : (parseStatus s).branch = [] := by
    unfold parseStatus
    rw [foldl_branch, lastHd_none (fun l hl => (h l hl).1)]
  have hab : (parseStatus s).ahead = 0 ∧ (parseStatus s).behind = 0 := by
    have hpair := foldl_ab (List.splitOn 10 s) ⟨[], 0, 0, false, false⟩
    rw [lastAb_none (fun l hl => (h l hl).2.1)] at hpair
    unfold parseStatus
    exact ⟨congrArg Prod.fst hpair, congrArg Prod.snd hpair⟩
  have htr : (parseStatus s).hasTracked = false := by
    unfold parseStatus
    rw [foldl_hasTracked]
    simp only [Bool.false_or, List.any_eq_false]
    intro l hl
    simp [(h l hl).2.2.1, (h l hl).2.2.2.1]
  have hun : (parseStatus s).hasUntracked = false := by
    unfold parseStatus
    rw [foldl_hasUntracked]
    simp only [Bool.false_or, List.any_eq_false]
    intro l hl
    simp [(h l hl).2.2.2.2]
  cases hps : parseStatus s with
  | mk b a be t u =>
    rw [hps] at hbr hab htr hun
    rw [gitStatus.mk.injEq]
    exact ⟨hbr, hab.1, hab.2, htr, hun⟩

theorem parseStatus_defaults_witness :
    parseStatus (gs "") = ⟨[], 0, 0, false, false⟩
      ∧ parseStatus (gs "# branch.upstream origin/main\nu AM N... 100644 conflict.txt")
        = ⟨[], 0, 0, false, false⟩ := by
  constructor
  · exact parseStatus_defaults (gs "") (by decide)
  · exact parseStatus_defaults (gs "# branch.upstream origin/main\nu AM N... 100644 conflict.txt")
      (by decide)

/-! ## The fetch gate (C2) -/

/-- C2 (failing input): with the default 30-minute interval, an upstream,
and a reflog entry recording a fetch only 600 seconds ago, `shouldFetch`
still returns `true`.  The loop parses `fields[1]` of the reflog line as
an integer, but in the reflog format that field is `origin/main@\x7b...\x7d:`
and never a bare integer, so the parse always fails, the timestamp
comparison is unreachable, and the gate never suppresses a fetch. -/
theorem shouldFetch_ignores_reflog_timestamp :
    getFetchInterval [] = 1800 * 1000000000
      ∧ (1700000600 : Int) * 1000000000 - 1700000000 * 1000000000 < getFetchInterval []
      ∧ shouldFetch (getFetchInterval []) (gs "origin/main")
          (gs "abc1234 origin/main@\x7b1700000000\x7d: fetch origin: fast-forward")
          (1700000600 * 1000000000) = true := by
  exact ⟨by decide, by decide, by decide⟩

/-! ## `readCwd` and the `cwd` member (C4) -/

lemma cwdField_lastAux (fs : List (GoStr × JValue)) (acc : GoStr) :
    fs.foldl
      (fun acc kv =>
        match kv.2 with
        | JValue.jstr v => if keyMatchesCwd kv.1 then v else acc
        | _ => acc) acc
      = (lastCwdStr fs).getD acc := by
  induction fs generalizing acc with
  | nil => rfl
  | cons kv rest ih =>
    rw [List.foldl_cons]
    simp only [lastCwdStr]
    rcases hv : lastCwdStr rest with _ | v
    · rw [ih]
      rw [hv]
      rcases kv with ⟨k, v2⟩
      cases v2 with
      | jstr vv =>
        simp only
        split_ifs <;> rfl
      | jnull => rfl
      | jbool b => rfl
      | jnum m => rfl
      | jarr xs => rfl
      | jobj ms => rfl
    · rw [ih]
      rw [hv]
      rfl

lemma cwdField_eq (fs : List (GoStr × JValue)) :
    cwdField fs = (lastCwdStr fs).getD [] :=
  cwdField_lastAux fs []

/-- C4 (counterexample): the input `\x7b"CWD": "/tmp"\x7d` is a valid JSON
object that has no member named `cwd` (JSON names are case-sensitive), so
the claim requires `readCwd` to return the empty string; yet `readCwd`
returns `/tmp`, because `encoding/json` matches object keys to struct
field keys case-insensitively. -/
theorem readCwd_counterexample :
    jsonParse (gs "\x7b\"CWD\": \"/tmp\"\x7d")
        = some (JValue.jobj [(gs "CWD", JValue.jstr (gs "/tmp"))])
      ∧ gs "CWD" ≠ gs "cwd"
      ∧ readCwd (gs "\x7b\"CWD\": \"/tmp\"\x7d") = gs "/tmp" := by
  exact ⟨rfl, by decide, by decide⟩

/-- C4 (amended): `readCwd` returns the whitespace-trimmed value of the
last member of the top-level JSON object whose name matches `cwd`
case-insensitively (ASCII) and whose value is a string; it returns the
empty string when the input is empty, is not valid JSON, has no such
member, or is not an object; and `main` falls back to the working
directory returned by `os.Getwd` exactly when `readCwd` returns the empty
string. -/
theorem readCwd_spec (s : GoStr) :
    (s = [] → readCwd s = [])
    ∧ (jsonParse s = none → readCwd s = [])
    ∧ (∀ fs v, jsonParse s = some (JValue.jobj fs) → lastCwdStr fs = some v →
        readCwd s = trimSpace v)
    ∧ (∀ fs, jsonParse s = some (JValue.jobj fs) → lastCwdStr fs = none →
        readCwd s = [])
    ∧ (∀ j, jsonParse s = some j → (∀ fs, j ≠ JValue.jobj fs) → readCwd s = [])
    ∧ (∀ g, readCwd s ≠ [] → mainCwd s g = readCwd s)
    ∧ (∀ g, readCwd s = [] → mainCwd s (some g) = g) := by
  have hnil : ∀ fsx : Option JValue, s = [] → jsonParse s = fsx → fsx = none := by
    intro fsx h0 hj
    rw [h0] at hj
    rw [← hj]
    rfl
  refine ⟨?_, ?_, ?_, ?_, ?_, ?_, ?_⟩
  · intro h
    unfold readCwd
    rw [if_pos h]
  · intro h
    unfold readCwd unmarshalCwd
    rw [h]
    split_ifs <;> rfl
  · intro fs v hj hv
    have hs : s ≠ [] := by
      intro h0
      have := hnil _ h0 hj
      exact Option.noConfusion this
    unfold readCwd unmarshalCwd
    rw [if_neg hs, hj]
    show trimSpace (cwdField fs) = trimSpace v
    rw [cwdField_eq, hv]
    rfl
  · intro fs hj hv
    have hs : s ≠ [] := by
      intro h0
      have := hnil _ h0 hj
      exact Option.noConfusion this
    unfold readCwd unmarshalCwd
    rw [if_neg hs, hj]
    show trimSpace (cwdField fs) = []
    rw [cwdField_eq, hv]
    rfl
  · intro j hj hne
    have hs : s ≠ [] := by
      intro h0
      have := hnil _ h0 hj
      exact Option.noConfusion this
    unfold readCwd unmarshalCwd
    rw [if_neg hs, hj]
    cases j with
    | jobj fs => exact absurd rfl (hne fs)
    | jnull => rfl
    | jbool b => rfl
    | jnum m => rfl
    | jstr v => rfl
    | jarr xs => rfl
  · intro g h
    simp only [mainCwd]
    rw [if_neg h]
  · intro g h
    simp only [mainCwd]
    rw [if_pos h]

theorem readCwd_spec_witness :
    readCwd (gs "\x7b\"cwd\": \"  /home/user  \"\x7d") = gs "/home/user"
      ∧ mainCwd (gs "") (some (gs "/fallback")) = gs "/fallback" := by
  constructor
  · rw [(readCwd_spec (gs "\x7b\"cwd\": \"  /home/user  \"\x7d")).2.2.1
      [(gs "cwd", JValue.jstr (gs "  /home/user  "))] (gs "  /home/user  ") rfl rfl]
    decide
  · exact (readCwd_spec (gs "")).2.2.2.2.2.2 (gs "/fallback") (by decide)
